import Mathlib

/-!
# Verification of the SoundSync audio relay and jitter-buffer engine

Shallow embedding of the core of the `music` repository:

* the PCM chunk codec (`host-room.tsx` quantizer, `join-room.tsx` decoder);
* the listener-side jitter buffer and playback scheduler
  (`join-room.tsx`: `scheduleAudio`, `playAudioData`, `goLive`);
* the in-memory session registry (`server/storage.ts`, `MemStorage`);
* the relay coordinator's `audio_data` handling (`server/routes.ts`,
  `registerRoutes`).

JavaScript `Map`s are embedded as association lists with `Map.set` /
`Map.delete` / `Map.get` semantics (`insertKV` / `eraseKV` / `lookupKV`);
JS numbers that carry times and sample values are embedded as exact
rationals, sequence numbers and lengths as naturals.
-/

namespace SoundSync

/-! ## Association-list maps (JS `Map` semantics) -/

/-- `Map.get`: value stored at the first occurrence of key `k`. -/
def lookupKV {κ α : Type} [DecidableEq κ] : List (κ × α) → κ → Option α
  | [], _ => none
  | (k', v) :: t, k => if k' = k then some v else lookupKV t k

/-- `Map.set`: replace the entry at `k` in place, or append a fresh one. -/
def insertKV {κ α : Type} [DecidableEq κ] : List (κ × α) → κ → α → List (κ × α)
  | [], k, v => [(k, v)]
  | (k', v') :: t, k, v =>
      if k' = k then (k, v) :: t else (k', v') :: insertKV t k v

/-- `Map.delete`: remove the entry at `k`. -/
def eraseKV {κ α : Type} [DecidableEq κ] : List (κ × α) → κ → List (κ × α)
  | [], _ => []
  | (k', v') :: t, k => if k' = k then t else (k', v') :: eraseKV t k

/-- Least key of the map, `Array.from(m.keys()).sort((a,b)=>a-b)[0]`. -/
def minKey? {α : Type} : List (ℕ × α) → Option ℕ
  | [] => none
  | (k, _) :: t =>
      match minKey? t with
      | none => some k
      | some m => some (min k m)

/-- Greatest key of the map, `keys[keys.length - 1]` after sorting. -/
def maxKey? {α : Type} : List (ℕ × α) → Option ℕ
  | [] => none
  | (k, _) :: t =>
      match maxKey? t with
      | none => some k
      | some m => some (max k m)

/-! ## Chunk codec (`host-room.tsx` lines 157–161, `join-room.tsx` lines 262–266) -/

/-- `Math.max(-1, Math.min(1, merged[i]))`. -/
def clampSample (x : ℚ) : ℚ := max (-1) (min 1 x)

/-- Source-side quantizer: `s < 0 ? s * 0x8000 : s * 0x7fff` after clamping. -/
def quantizeSample (x : ℚ) : ℚ :=
  let s := clampSample x
  if s < 0 then s * 0x8000 else s * 0x7fff

/-- Listener-side decoder:
`int16Array[i] / (int16Array[i] < 0 ? 0x8000 : 0x7fff)`. -/
def decodeSample (v : ℤ) : ℚ :=
  if v < 0 then (v : ℚ) / 0x8000 else (v : ℚ) / 0x7fff

/-! ## Jitter buffer & playback scheduler (`join-room.tsx`) -/

/-- `SAMPLE_RATE = 48000`. -/
def SAMPLE_RATE : ℕ := 48000

/-- `BUFFER_SIZE = 2048`. -/
def BUFFER_SIZE : ℕ := 2048

/-- `CHUNKS_PER_SECOND = SAMPLE_RATE / BUFFER_SIZE`. -/
def CHUNKS_PER_SECOND : ℚ := (SAMPLE_RATE : ℚ) / (BUFFER_SIZE : ℚ)

/-- `TARGET_DELAY_SECONDS = 6`. -/
def TARGET_DELAY_SECONDS : ℚ := 6

/-- `TARGET_BUFFER_SIZE = Math.floor(CHUNKS_PER_SECOND * TARGET_DELAY_SECONDS)`
`= Math.floor(140.625) = 140`; the value is folded here and
`TARGET_BUFFER_SIZE_spec` below proves it is the floor of the source
expression. -/
def TARGET_BUFFER_SIZE : ℕ := 140

/-- `SCHEDULE_AHEAD_TIME = 0.6`. -/
def SCHEDULE_AHEAD_TIME : ℚ := 3 / 5

/-- `maxChunksPerCycle = 20` (local constant of `scheduleAudio`). -/
def maxChunksPerCycle : ℕ := 20

/-- The mutable refs of the listener page that the jitter-buffer logic reads
and writes: `audioBufferRef` (map from sequence number to decoded stereo
interleaved `Float32Array`), `nextPlaySeqRef`, `nextPlayTimeRef`,
`isBufferingRef`, `latestReceivedSeqRef`, and the `isDelayed` React state. -/
structure ListenerState where
  buffer : List (ℕ × List ℚ)
  nextPlaySeq : Option ℕ
  nextPlayTime : ℚ
  isBuffering : Bool
  latestReceivedSeq : ℕ
  isDelayed : Bool
deriving DecidableEq, Repr

/-- `totalSamples`: sum over buffered chunks of `chunk.length`. -/
def totalSamples (b : List (ℕ × List ℚ)) : ℕ :=
  (b.map (fun p => p.2.length)).sum

/-- `delaySeconds = (totalSamples / 2) / SAMPLE_RATE`. -/
def delaySeconds (b : List (ℕ × List ℚ)) : ℚ :=
  ((totalSamples b : ℚ) / 2) / (SAMPLE_RATE : ℚ)

/-- The buffering→playing transition body of `scheduleAudio`
(lines 108–124): clear `isBuffering`, resynchronize `nextPlaySeq` to the
least buffered key when it is unset or missing from the buffer, and set
`nextPlayTime := max(now + 0.2, nextPlayTime)`. -/
def startPlayback (now : ℚ) (s : ListenerState) : ListenerState :=
  let s1 := { s with isBuffering := false }
  let needResync :=
    match s1.nextPlaySeq with
    | none => true
    | some q => (lookupKV s1.buffer q).isNone
  let s2 :=
    if needResync then
      match minKey? s1.buffer with
      | some m => { s1 with nextPlaySeq := some m }
      | none => s1
    else s1
  { s2 with nextPlayTime := max (now + 1 / 5) s2.nextPlayTime }

/-- The underrun condition of `scheduleAudio` (line 132):
`nextPlaySeq !== null && !buffer.has(nextPlaySeq) && !isBuffering &&
nextPlayTime < now`. -/
def underrunHit (now : ℚ) (s : ListenerState) : Bool :=
  match s.nextPlaySeq with
  | some q => (lookupKV s.buffer q).isNone && !s.isBuffering && decide (s.nextPlayTime < now)
  | none => false

/-- Result of the scheduling `while` loop: the three refs it mutates plus the
list of sequence numbers it scheduled this tick (in order). -/
structure LoopResult where
  nextPlaySeq : Option ℕ
  nextPlayTime : ℚ
  buffer : List (ℕ × List ℚ)
  scheduled : List ℕ
deriving DecidableEq, Repr

/-- The scheduling `while` loop of `scheduleAudio` (lines 149–179).  The
fuel argument counts the remaining iterations allowed by
`chunksScheduled < maxChunksPerCycle`.  Each iteration removes the chunk at
`nextPlaySeq` from the buffer, advances `nextPlayTime` by the chunk's
duration (`frameCount / SAMPLE_RATE` with `frameCount = samples.length / 2`),
and increments `nextPlaySeq`. -/
def schedLoop (now : ℚ) : ℕ → Option ℕ → ℚ → List (ℕ × List ℚ) → LoopResult
  | 0, np, t, b => ⟨np, t, b, []⟩
  | _ + 1, none, t, b => ⟨none, t, b, []⟩
  | fuel + 1, some q, t, b =>
      match lookupKV b q with
      | none => ⟨some q, t, b, []⟩
      | some samples =>
          if t < now + SCHEDULE_AHEAD_TIME then
            let frameCount := samples.length / 2
            let dur : ℚ := (frameCount : ℚ) / (SAMPLE_RATE : ℚ)
            let r := schedLoop now fuel (some (q + 1)) (t + dur) (eraseKV b q)
            ⟨r.nextPlaySeq, r.nextPlayTime, r.buffer, q :: r.scheduled⟩
          else ⟨some q, t, b, []⟩

/-- Everything `scheduleAudio` does after the buffering block (lines
130–186): underrun check, drift correction, scheduling loop, and the
recomputation of the `isDelayed` flag
(`latestReceivedSeq - (nextPlaySeq || 0) > TARGET_BUFFER_SIZE * 2`). -/
def schedulingPhase (now : ℚ) (s : ListenerState) : ListenerState × List ℕ :=
  if underrunHit now s then
    ({ s with isBuffering := true }, [])
  else
    let t0 := if s.nextPlayTime - now < 0 then now + 1 / 20 else s.nextPlayTime
    let r := schedLoop now maxChunksPerCycle s.nextPlaySeq t0 s.buffer
    let delayed :=
      decide ((s.latestReceivedSeq : ℤ) - (r.nextPlaySeq.getD 0 : ℤ) >
        (TARGET_BUFFER_SIZE : ℤ) * 2)
    ({ s with
        buffer := r.buffer
        nextPlaySeq := r.nextPlaySeq
        nextPlayTime := r.nextPlayTime
        isDelayed := delayed },
     r.scheduled)

/-- One scheduler tick, `scheduleAudio` (lines 83–188), at output-clock time
`now`.  Returns the new listener state and the sequence numbers scheduled
for playback during this tick. -/
def scheduleAudio (now : ℚ) (s : ListenerState) : ListenerState × List ℕ :=
  if s.isBuffering then
    if TARGET_DELAY_SECONDS ≤ delaySeconds s.buffer then
      schedulingPhase now (startPlayback now s)
    else (s, [])
  else schedulingPhase now s

/-- Chunk-arrival handler `playAudioData` (lines 240–278): restart
detection (`latestReceivedSeq > seq + 100` clears everything), then decode
the int16 payload to floats, insert under `seq`, and bump
`latestReceivedSeq` to the max. -/
def playAudioData (seq : ℕ) (int16Data : List ℤ) (s : ListenerState) :
    ListenerState :=
  let s1 :=
    if seq + 100 < s.latestReceivedSeq then
      { s with
          buffer := []
          nextPlaySeq := none
          isBuffering := true
          latestReceivedSeq := 0 }
    else s
  let float32Array := int16Data.map decodeSample
  { s1 with
      buffer := insertKV s1.buffer seq float32Array
      latestReceivedSeq := max s1.latestReceivedSeq seq }

/-- Manual resync `goLive` (lines 205–238): with a non-empty buffer, keep
only the chunks with key at least `max(oldest, newest − TARGET_BUFFER_SIZE)`,
point `nextPlaySeq` there, set `nextPlayTime := now + 0.05`, clear
`isDelayed`; with an empty buffer do nothing. -/
def goLive (now : ℚ) (s : ListenerState) : ListenerState :=
  match minKey? s.buffer, maxKey? s.buffer with
  | some lo, some latest =>
      let targetStart := max lo (latest - TARGET_BUFFER_SIZE)
      { s with
          buffer := s.buffer.filter (fun p => decide (targetStart ≤ p.1))
          nextPlaySeq := some targetStart
          nextPlayTime := now + 1 / 20
          isDelayed := false }
  | _, _ => s

/-! ## Session registry (`server/storage.ts`, `MemStorage`) -/

/-- `Room` record of the shared schema. -/
structure Room where
  id : String
  hostId : String
  isActive : Bool
  createdAt : ℚ
deriving DecidableEq, Repr

/-- `Participant` record of the shared schema. -/
structure Participant where
  id : ℕ
  roomId : String
  clientId : String
  joinedAt : ℚ
deriving DecidableEq, Repr

/-- The `MemStorage` fields: `rooms` keyed by room id, `participants` keyed
by listener client id, and the `currentId` counter. -/
structure MemStorage where
  rooms : List (String × Room)
  participants : List (String × Participant)
  currentId : ℕ
deriving DecidableEq, Repr

/-- The freshly constructed `MemStorage`. -/
def emptyStorage : MemStorage := ⟨[], [], 1⟩

/-- `MemStorage.createRoom`.  The room id repeatedly sampled by
`generateRoomId()` until it misses `rooms` is passed in as `roomId`;
`now` stands for `new Date()`. -/
def createRoom (roomId hostId : String) (now : ℚ) (s : MemStorage) :
    MemStorage × Room :=
  let room : Room := ⟨roomId, hostId, false, now⟩
  ({ s with rooms := insertKV s.rooms roomId room }, room)

/-- `MemStorage.addListener`: `false` leaving the store untouched when the
room is absent, otherwise register the participant under the listener id. -/
def addListener (roomId listenerId : String) (now : ℚ) (s : MemStorage) :
    MemStorage × Bool :=
  match lookupKV s.rooms roomId with
  | none => (s, false)
  | some _ =>
      let participant : Participant := ⟨s.currentId, roomId, listenerId, now⟩
      ({ s with
          participants := insertKV s.participants listenerId participant
          currentId := s.currentId + 1 },
       true)

/-- `MemStorage.removeListener`. -/
def removeListener (roomId listenerId : String) (s : MemStorage) :
    MemStorage × Bool :=
  match lookupKV s.participants listenerId with
  | some p =>
      if p.roomId = roomId then
        ({ s with participants := eraseKV s.participants listenerId }, true)
      else (s, false)
  | none => (s, false)

/-- `MemStorage.deleteRoom`: drop every participant of the room, then the
room itself; the result reports whether the room was present. -/
def deleteRoom (roomId : String) (s : MemStorage) : MemStorage × Bool :=
  ({ s with
      participants := s.participants.filter (fun pr => !decide (pr.2.roomId = roomId))
      rooms := eraseKV s.rooms roomId },
   (lookupKV s.rooms roomId).isSome)

/-- `MemStorage.getListenerCount`. -/
def getListenerCount (roomId : String) (s : MemStorage) : ℕ :=
  (s.participants.filter (fun pr => decide (pr.2.roomId = roomId))).length

/-- `MemStorage.setRoomActive`. -/
def setRoomActive (roomId : String) (isActive : Bool) (s : MemStorage) :
    MemStorage :=
  match lookupKV s.rooms roomId with
  | some room => { s with rooms := insertKV s.rooms roomId { room with isActive := isActive } }
  | none => s

/-- The registry operations quantified over by the orphan-membership
invariant. -/
inductive StorageOp where
  | createRoom (roomId hostId : String) (now : ℚ)
  | addListener (roomId listenerId : String) (now : ℚ)
  | removeListener (roomId listenerId : String)
  | deleteRoom (roomId : String)
deriving DecidableEq, Repr

/-- Apply one registry operation, discarding the returned value. -/
def applyOp (op : StorageOp) (s : MemStorage) : MemStorage :=
  match op with
  | .createRoom roomId hostId now => (createRoom roomId hostId now s).1
  | .addListener roomId listenerId now => (addListener roomId listenerId now s).1
  | .removeListener roomId listenerId => (removeListener roomId listenerId s).1
  | .deleteRoom roomId => (deleteRoom roomId s).1

/-- Run a sequence of registry operations from a starting store. -/
def runOps (ops : List StorageOp) (s : MemStorage) : MemStorage :=
  ops.foldl (fun st op => applyOp op st) s

/-- Every listener membership references a room present in the room table. -/
def WellFormedStorage (s : MemStorage) : Prop :=
  ∀ pr ∈ s.participants, (lookupKV s.rooms pr.2.roomId).isSome

/-! ## Relay coordinator (`server/routes.ts`, `registerRoutes`) -/

/-- The `OutgoingMessage` union of the relay. -/
inductive OutMsg where
  | roomCreated (roomId : String)
  | roomJoined (roomId : String) (hostConnected : Bool)
  | audioData (data : String) (seq : Option ℕ) (timestamp : Option ℚ)
  | listenerCount (count : ℕ)
  | hostDisconnected
  | error (message : String)
  | hostStreaming
deriving DecidableEq, Repr

/-- The `ClientConnection` record (minus the raw socket handle). -/
structure ClientConnection where
  clientId : String
  roomId : Option String
  isHost : Bool
  isStreaming : Bool
  lastAudioTime : ℚ
deriving DecidableEq, Repr

/-- Relay server state: the `clients` connection map and the storage. -/
structure ServerState where
  clients : List (String × ClientConnection)
  storage : MemStorage
deriving DecidableEq, Repr

/-- `broadcastToListeners`: iterate the connection map and send to every
client registered to `roomId` that is not the host. -/
def broadcastToListeners (st : ServerState) (roomId : String) (msg : OutMsg) :
    List (String × OutMsg) :=
  (st.clients.filter
      (fun pr => decide (pr.2.roomId = some roomId) && !pr.2.isHost)).map
    (fun pr => (pr.1, msg))

/-- The client ids `broadcastToListeners` delivers to for `roomId`. -/
def listenerIds (st : ServerState) (roomId : String) : List String :=
  ((st.clients.filter
      (fun pr => decide (pr.2.roomId = some roomId) && !pr.2.isHost)).map
    Prod.fst)

/-- The `audio_data` case of the relay's message handler (lines 192–226):
ignore non-hosts, stamp `lastAudioTime`, perform the one-time
streaming transition (set `isStreaming`, mark the room active, broadcast
`host_streaming`), then validate the payload (empty or over 5242880
characters is dropped) and relay it unchanged to every listener.  Returns
the new server state and the messages sent, in order. -/
def handleAudioData (clientId : String) (data : String) (seq : Option ℕ)
    (timestamp : Option ℚ) (now : ℚ) (st : ServerState) :
    ServerState × List (String × OutMsg) :=
  match lookupKV st.clients clientId with
  | none => (st, [])
  | some conn =>
      match conn.roomId with
      | none => (st, [])
      | some roomId =>
          if conn.isHost then
            let conn1 := { conn with lastAudioTime := now }
            let step :=
              if conn1.isStreaming then
                ({ st with clients := insertKV st.clients clientId conn1 }, ([] : List (String × OutMsg)))
              else
                let conn2 := { conn1 with isStreaming := true }
                let st' : ServerState :=
                  { clients := insertKV st.clients clientId conn2
                    storage := setRoomActive roomId true st.storage }
                (st', broadcastToListeners st' roomId OutMsg.hostStreaming)
            let st1 := step.1
            let out1 := step.2
            if data.length = 0 then (st1, out1)
            else if 5242880 < data.length then (st1, out1)
            else (st1, out1 ++ broadcastToListeners st1 roomId (OutMsg.audioData data seq timestamp))
          else (st, [])

/-! ## Concrete states used to exercise the model -/

/-- Listener in `playing` state whose next-play chunk 5 is missing while
chunks 6..10 are buffered and the scheduled play time has passed. -/
def underrunWitnessState : ListenerState :=
  ⟨[(6, [0]), (7, [0]), (8, [0]), (9, [0]), (10, [0])], some 5, 0, false, 10, false⟩

/-- Listener holding the single buffered chunk 1000 (e.g. having joined
mid-stream), with `latestReceivedSeq = 1000`. -/
def goLiveCexState : ListenerState := ⟨[(1000, [0])], none, 0, false, 1000, false⟩

/-- Listener holding the sparse buffer `{0, 200}`. -/
def goLiveWitnessState : ListenerState :=
  ⟨[(0, [0]), (200, [0])], none, 0, false, 200, true⟩

/-- 12 s of silent stereo audio at 48 kHz: 1152000 interleaved samples. -/
def bigChunk : List ℚ := List.replicate 1152000 0

/-- Listener in `playing` state pointing at the missing chunk 5 while
chunk 6 (12 s of stereo audio at 48 kHz) is buffered and the scheduled
play time has passed. -/
def tickTwiceCexState : ListenerState :=
  ⟨[(6, bigChunk)], some 5, 0, false, 10, false⟩

/-- `tickTwiceCexState` after its first tick at clock 1 (re-buffering). -/
def tickTwiceCexState1 : ListenerState :=
  ⟨[(6, bigChunk)], some 5, 0, true, 10, false⟩

/-- `tickTwiceCexState1` after the buffering→playing transition of the
second tick at clock 1. -/
def tickTwiceCexState2 : ListenerState :=
  ⟨[(6, bigChunk)], some 6, 6 / 5, false, 10, false⟩

/-- Listener freshly buffering with an empty buffer. -/
def bufferingWitnessState : ListenerState := ⟨[], none, 0, true, 0, false⟩

/-- Listener in `playing` state about to receive chunk 3. -/
def playWitnessState : ListenerState := ⟨[(2, [0, 0])], some 2, 1, false, 2, false⟩

/-- Relay with the host `"h"` of room `"R"` not yet streaming and one
listener `"l"` registered to the room. -/
def serverIdleState : ServerState :=
  { clients :=
      [("h", ⟨"h", some "R", true, false, 0⟩),
       ("l", ⟨"l", some "R", false, false, 0⟩)]
    storage :=
      { rooms := [("R", ⟨"R", "h", false, 0⟩)]
        participants := [("l", ⟨1, "R", "l", 0⟩)]
        currentId := 2 } }

/-- Relay with the host `"h"` of room `"R"` already streaming and one
listener `"l"` registered to the room. -/
def serverStreamingState : ServerState :=
  { clients :=
      [("h", ⟨"h", some "R", true, true, 0⟩),
       ("l", ⟨"l", some "R", false, false, 0⟩)]
    storage :=
      { rooms := [("R", ⟨"R", "h", true, 0⟩)]
        participants := [("l", ⟨1, "R", "l", 0⟩)]
        currentId := 2 } }

/-! ## Map lemmas -/

theorem lookupKV_insertKV {κ α : Type} [DecidableEq κ] (l : List (κ × α))
    (k k' : κ) (v : α) :
    lookupKV (insertKV l k v) k' = if k = k' then some v else lookupKV l k' := by
  induction l with
  | nil => by_cases h : k = k' <;> simp [insertKV, lookupKV, h]
  | cons hd t ih =>
      obtain ⟨k1, v1⟩ := hd
      by_cases h1 : k1 = k
      · subst h1
        by_cases h2 : k1 = k' <;> simp [insertKV, lookupKV, h2]
      · by_cases h2 : k1 = k'
        · subst h2
          have hne : ¬ k = k1 := fun h => h1 h.symm
          simp [insertKV, lookupKV, h1, hne]
        · simp [insertKV, lookupKV, h1, h2, ih]

theorem mem_insertKV {κ α : Type} [DecidableEq κ] (l : List (κ × α))
    (k : κ) (v : α) :
    ∀ a ∈ insertKV l k v, a ∈ l ∨ a = (k, v) := by
  induction l with
  | nil =>
      intro a ha
      right
      simpa [insertKV] using ha
  | cons hd t ih =>
      obtain ⟨k1, v1⟩ := hd
      intro a ha
      by_cases h1 : k1 = k
      · rw [insertKV, if_pos h1] at ha
        rcases List.mem_cons.mp ha with hh | hh
        · right; exact hh
        · left; exact List.mem_cons_of_mem _ hh
      · rw [insertKV, if_neg h1] at ha
        rcases List.mem_cons.mp ha with hh | hh
        · left; exact hh ▸ List.mem_cons_self _ _
        · rcases ih a hh with hh' | hh'
          · left; exact List.mem_cons_of_mem _ hh'
          · right; exact hh'

theorem keys_insertKV_of_lookup {κ α : Type} [DecidableEq κ]
    {l : List (κ × α)} {k : κ} {v0 : α} (h : lookupKV l k = some v0) (v : α) :
    (insertKV l k v).map Prod.fst = l.map Prod.fst := by
  induction l with
  | nil => simp [lookupKV] at h
  | cons hd t ih =>
      obtain ⟨k1, v1⟩ := hd
      by_cases h1 : k1 = k
      · subst h1; simp [insertKV]
      · rw [lookupKV, if_neg h1] at h
        simp [insertKV, h1, ih h]

theorem mem_of_mem_eraseKV {κ α : Type} [DecidableEq κ] (l : List (κ × α))
    (k : κ) : ∀ a ∈ eraseKV l k, a ∈ l := by
  induction l with
  | nil => intro a ha; simp [eraseKV] at ha
  | cons hd t ih =>
      obtain ⟨k1, v1⟩ := hd
      intro a ha
      by_cases h1 : k1 = k
      · rw [eraseKV, if_pos h1] at ha
        exact List.mem_cons_of_mem _ ha
      · rw [eraseKV, if_neg h1] at ha
        rcases List.mem_cons.mp ha with hh | hh
        · exact hh ▸ List.mem_cons_self _ _
        · exact List.mem_cons_of_mem _ (ih a hh)

theorem mem_keys_of_mem_keys_eraseKV {κ α : Type} [DecidableEq κ]
    {l : List (κ × α)} {k k' : κ} (h : k' ∈ (eraseKV l k).map Prod.fst) :
    k' ∈ l.map Prod.fst := by
  rcases List.mem_map.mp h with ⟨a, ha, rfl⟩
  exact List.mem_map.mpr ⟨a, mem_of_mem_eraseKV l k a ha, rfl⟩

theorem isSome_of_lookupKV_eraseKV {κ α : Type} [DecidableEq κ]
    (l : List (κ × α)) (k k' : κ)
    (h : (lookupKV (eraseKV l k) k').isSome) : (lookupKV l k').isSome := by
  induction l with
  | nil => simpa [eraseKV] using h
  | cons hd t ih =>
      obtain ⟨k1, v1⟩ := hd
      by_cases h1 : k1 = k
      · rw [eraseKV, if_pos h1] at h
        by_cases h2 : k1 = k'
        · simp [lookupKV, h2]
        · rw [lookupKV, if_neg h2]
          exact Option.isSome_iff_exists.mpr
            (Option.isSome_iff_exists.mp h)
      · rw [eraseKV, if_neg h1] at h
        by_cases h2 : k1 = k'
        · simp [lookupKV, h2]
        · rw [lookupKV, if_neg h2] at h ⊢
          exact ih h

theorem lookupKV_eq_none_of_not_mem_keys {κ α : Type} [DecidableEq κ]
    {l : List (κ × α)} {k : κ} (h : k ∉ l.map Prod.fst) :
    lookupKV l k = none := by
  induction l with
  | nil => rfl
  | cons hd t ih =>
      obtain ⟨k1, v1⟩ := hd
      simp only [List.map_cons, List.mem_cons, not_or] at h
      have h1 : k1 ≠ k := fun hk => h.1 hk.symm
      simp [lookupKV, h1, ih h.2]

theorem lookupKV_eraseKV_self {κ α : Type} [DecidableEq κ]
    {l : List (κ × α)} (hnd : (l.map Prod.fst).Nodup) (k : κ) :
    lookupKV (eraseKV l k) k = none := by
  induction l with
  | nil => rfl
  | cons hd t ih =>
      obtain ⟨k1, v1⟩ := hd
      simp only [List.map_cons, List.nodup_cons] at hnd
      by_cases h1 : k1 = k
      · rw [eraseKV, if_pos h1]
        exact lookupKV_eq_none_of_not_mem_keys (h1 ▸ hnd.1)
      · rw [eraseKV, if_neg h1, lookupKV, if_neg h1]
        exact ih hnd.2

theorem nodup_keys_eraseKV {κ α : Type} [DecidableEq κ]
    {l : List (κ × α)} (hnd : (l.map Prod.fst).Nodup) (k : κ) :
    ((eraseKV l k).map Prod.fst).Nodup := by
  induction l with
  | nil => simp [eraseKV]
  | cons hd t ih =>
      obtain ⟨k1, v1⟩ := hd
      simp only [List.map_cons, List.nodup_cons] at hnd
      by_cases h1 : k1 = k
      · rw [eraseKV, if_pos h1]
        exact hnd.2
      · rw [eraseKV, if_neg h1]
        simp only [List.map_cons, List.nodup_cons]
        exact ⟨fun hm => hnd.1 (mem_keys_of_mem_keys_eraseKV hm), ih hnd.2⟩

theorem lookupKV_isSome_of_mem_keys {κ α : Type} [DecidableEq κ]
    {l : List (κ × α)} {k : κ} (h : k ∈ l.map Prod.fst) :
    (lookupKV l k).isSome := by
  induction l with
  | nil => simp at h
  | cons hd t ih =>
      obtain ⟨k1, v1⟩ := hd
      by_cases h1 : k1 = k
      · simp [lookupKV, h1]
      · simp only [List.map_cons, List.mem_cons] at h
        rcases h with h | h
        · exact absurd h.symm h1
        · simpa [lookupKV, h1] using ih h

theorem minKey?_mem {α : Type} {l : List (ℕ × α)} :
    ∀ {m : ℕ}, minKey? l = some m → m ∈ l.map Prod.fst := by
  induction l with
  | nil => intro m h; simp [minKey?] at h
  | cons hd t ih =>
      obtain ⟨k, v⟩ := hd
      intro m h
      rw [minKey?] at h
      cases ht : minKey? t with
      | none => rw [ht] at h; simp only [Option.some.injEq] at h; simp [h]
      | some m' =>
          rw [ht] at h
          simp only [Option.some.injEq] at h
          rcases min_cases k m' with ⟨heq, _⟩ | ⟨heq, _⟩
          · rw [← h, heq]; exact List.mem_cons_self _ _
          · rw [← h, heq]
            exact List.mem_cons_of_mem _ (ih ht)

theorem minKey?_le {α : Type} {l : List (ℕ × α)} :
    ∀ {m : ℕ}, minKey? l = some m → ∀ k ∈ l.map Prod.fst, m ≤ k := by
  induction l with
  | nil => intro m _ k hk; simp at hk
  | cons hd t ih =>
      obtain ⟨k1, v1⟩ := hd
      intro m h k hk
      rw [minKey?] at h
      simp only [List.map_cons, List.mem_cons] at hk
      cases ht : minKey? t with
      | none =>
          rw [ht] at h
          simp only [Option.some.injEq] at h
          rcases hk with hk | hk
          · omega
          · exfalso
            rcases List.mem_map.mp hk with ⟨a, ha, _⟩
            cases t with
            | nil => simp at ha
            | cons hd2 t2 =>
                obtain ⟨k2, v2⟩ := hd2
                rw [minKey?] at ht
                cases ht' : minKey? t2 <;> rw [ht'] at ht <;> simp at ht
      | some m' =>
          rw [ht] at h
          simp only [Option.some.injEq] at h
          rcases hk with hk | hk
          · subst hk; omega
          · have := ih ht k hk
            omega

theorem maxKey?_ge {α : Type} {l : List (ℕ × α)} :
    ∀ {m : ℕ}, maxKey? l = some m → ∀ k ∈ l.map Prod.fst, k ≤ m := by
  induction l with
  | nil => intro m _ k hk; simp at hk
  | cons hd t ih =>
      obtain ⟨k1, v1⟩ := hd
      intro m h k hk
      rw [maxKey?] at h
      simp only [List.map_cons, List.mem_cons] at hk
      cases ht : maxKey? t with
      | none =>
          rw [ht] at h
          simp only [Option.some.injEq] at h
          rcases hk with hk | hk
          · omega
          · exfalso
            rcases List.mem_map.mp hk with ⟨a, ha, _⟩
            cases t with
            | nil => simp at ha
            | cons hd2 t2 =>
                obtain ⟨k2, v2⟩ := hd2
                rw [maxKey?] at ht
                cases ht' : maxKey? t2 <;> rw [ht'] at ht <;> simp at ht
      | some m' =>
          rw [ht] at h
          simp only [Option.some.injEq] at h
          rcases hk with hk | hk
          · subst hk; omega
          · have := ih ht k hk
            omega

theorem minKey?_isSome {α : Type} {l : List (ℕ × α)} (h : l ≠ []) :
    (minKey? l).isSome := by
  cases l with
  | nil => exact absurd rfl h
  | cons hd t =>
      obtain ⟨k, v⟩ := hd
      rw [minKey?]
      cases minKey? t <;> simp

/-- `TARGET_BUFFER_SIZE` is `Math.floor(CHUNKS_PER_SECOND * TARGET_DELAY_SECONDS)`. -/
theorem TARGET_BUFFER_SIZE_spec :
    (TARGET_BUFFER_SIZE : ℚ) ≤ CHUNKS_PER_SECOND * TARGET_DELAY_SECONDS ∧
      CHUNKS_PER_SECOND * TARGET_DELAY_SECONDS < (TARGET_BUFFER_SIZE : ℚ) + 1 := by
  norm_num [TARGET_BUFFER_SIZE, CHUNKS_PER_SECOND, TARGET_DELAY_SECONDS,
    SAMPLE_RATE, BUFFER_SIZE]

/-! ## Chunk codec theorems -/

/-- C9: the source-side quantizer clamps to `[-1, 1]` and scales by
`0x8000` on the negative side and `0x7fff` on the non-negative side, so
the result always lies in the signed 16-bit range `[-32768, 32767]`, with
`+1` mapping to `32767` and `-1` to `-32768`. -/
theorem quantizeSample_range (x : ℚ) :
    -32768 ≤ quantizeSample x ∧ quantizeSample x ≤ 32767 ∧
      quantizeSample 1 = 32767 ∧ quantizeSample (-1) = -32768 := by
  have hlo : -1 ≤ clampSample x := le_max_left _ _
  have hhi : clampSample x ≤ 1 := by
    have h1 : min 1 x ≤ 1 := min_le_left _ _
    exact max_le (by norm_num) h1
  have hq : quantizeSample x =
      if clampSample x < 0 then clampSample x * 32768 else clampSample x * 32767 := rfl
  refine ⟨?_, ?_, ?_, ?_⟩
  · rw [hq]
    by_cases hs : clampSample x < 0
    · rw [if_pos hs]; nlinarith
    · rw [if_neg hs]
      have := le_of_not_lt hs
      nlinarith
  · rw [hq]
    by_cases hs : clampSample x < 0
    · rw [if_pos hs]; nlinarith
    · rw [if_neg hs]; nlinarith
  · norm_num [quantizeSample, clampSample]
  · norm_num [quantizeSample, clampSample]

/-- C10: decoding a signed 16-bit value and re-quantizing it gives back
exactly the same value over exact rational arithmetic, and the clamp never
alters a decoded value. -/
theorem decode_quantize_roundtrip (v : ℤ) (h1 : -32768 ≤ v) (h2 : v ≤ 32767) :
    quantizeSample (decodeSample v) = (v : ℚ) ∧
      clampSample (decodeSample v) = decodeSample v := by
  by_cases hv : v < 0
  · have hd : decodeSample v = (v : ℚ) / 32768 := by
      rw [decodeSample, if_pos hv]
    have hvq : (-32768 : ℚ) ≤ (v : ℚ) := by exact_mod_cast h1
    have hvq0 : (v : ℚ) < 0 := by exact_mod_cast hv
    have hlo : (-1 : ℚ) ≤ (v : ℚ) / 32768 := by
      rw [show (-1 : ℚ) = -32768 / 32768 by norm_num]
      exact (div_le_div_iff_of_pos_right (by norm_num)).mpr hvq
    have hhi : (v : ℚ) / 32768 ≤ 1 := by
      have : (v : ℚ) / 32768 < 0 := div_neg_of_neg_of_pos hvq0 (by norm_num)
      linarith
    have hclamp : clampSample (decodeSample v) = decodeSample v := by
      rw [hd]
      unfold clampSample
      rw [min_eq_right hhi, max_eq_right hlo]
    refine ⟨?_, hclamp⟩
    have hneg : decodeSample v < 0 := by
      rw [hd]; exact div_neg_of_neg_of_pos hvq0 (by norm_num)
    have hq : quantizeSample (decodeSample v) =
        if clampSample (decodeSample v) < 0 then clampSample (decodeSample v) * 32768
        else clampSample (decodeSample v) * 32767 := rfl
    rw [hq, hclamp, if_pos hneg, hd]
    field_simp
  · have hv' : 0 ≤ v := le_of_not_lt hv
    have hd : decodeSample v = (v : ℚ) / 32767 := by
      rw [decodeSample, if_neg hv]
    have hvq : (v : ℚ) ≤ 32767 := by exact_mod_cast h2
    have hvq0 : (0 : ℚ) ≤ (v : ℚ) := by exact_mod_cast hv'
    have hhi : (v : ℚ) / 32767 ≤ 1 := by
      rw [div_le_one (by norm_num : (0:ℚ) < 32767)]; exact hvq
    have hlo : (-1 : ℚ) ≤ (v : ℚ) / 32767 := by
      have : (0 : ℚ) ≤ (v : ℚ) / 32767 := div_nonneg hvq0 (by norm_num)
      linarith
    have hclamp : clampSample (decodeSample v) = decodeSample v := by
      rw [hd]
      unfold clampSample
      rw [min_eq_right hhi, max_eq_right hlo]
    refine ⟨?_, hclamp⟩
    have hneg : ¬ decodeSample v < 0 := by
      rw [hd]; push_neg; exact div_nonneg hvq0 (by norm_num)
    have hq : quantizeSample (decodeSample v) =
        if clampSample (decodeSample v) < 0 then clampSample (decodeSample v) * 32768
        else clampSample (decodeSample v) * 32767 := rfl
    rw [hq, hclamp, if_neg hneg, hd]
    field_simp

/-- Witness for C10 at the extreme points of the 16-bit range. -/
theorem decode_quantize_roundtrip_witness :
    ((-32768 : ℤ) ≤ -32768 ∧ (-32768 : ℤ) ≤ 32767 ∧
      quantizeSample (decodeSample (-32768)) = ((-32768 : ℤ) : ℚ)) ∧
    quantizeSample (decodeSample 32767) = ((32767 : ℤ) : ℚ) :=
  ⟨⟨by norm_num, by norm_num,
      (decode_quantize_roundtrip (-32768) (by norm_num) (by norm_num)).1⟩,
    (decode_quantize_roundtrip 32767 (by norm_num) (by norm_num)).1⟩

/-! ## Chunk arrival (claim C2) -/

/-- C2: on a decoded chunk arrival with sequence `seq`, a latest-received
counter strictly above `seq + 100` triggers the restart path (buffer
cleared, pointer unset, buffering re-entered, counter reset) before the
insertion; otherwise the handler only inserts the decoded block under
`seq` and raises the counter to `max(latestReceivedSeq, seq)`, removing no
buffered chunk. -/
theorem playAudioData_behavior (seq : ℕ) (int16Data : List ℤ) (s : ListenerState) :
    (seq + 100 < s.latestReceivedSeq →
      playAudioData seq int16Data s =
        { s with
            buffer := [(seq, int16Data.map decodeSample)]
            nextPlaySeq := none
            isBuffering := true
            latestReceivedSeq := seq }) ∧
    (s.latestReceivedSeq ≤ seq + 100 →
      lookupKV (playAudioData seq int16Data s).buffer seq =
          some (int16Data.map decodeSample) ∧
      (playAudioData seq int16Data s).latestReceivedSeq = max s.latestReceivedSeq seq ∧
      (∀ k, (lookupKV s.buffer k).isSome →
        (lookupKV (playAudioData seq int16Data s).buffer k).isSome) ∧
      (playAudioData seq int16Data s).nextPlaySeq = s.nextPlaySeq ∧
      (playAudioData seq int16Data s).isBuffering = s.isBuffering ∧
      (playAudioData seq int16Data s).nextPlayTime = s.nextPlayTime) := by
  constructor
  · intro h
    simp [playAudioData, if_pos h, insertKV]
  · intro h
    have hcond : ¬ seq + 100 < s.latestReceivedSeq := not_lt.mpr h
    have hres : playAudioData seq int16Data s =
        { s with
            buffer := insertKV s.buffer seq (int16Data.map decodeSample)
            latestReceivedSeq := max s.latestReceivedSeq seq } := by
      simp [playAudioData, if_neg hcond]
    refine ⟨?_, ?_, ?_, ?_, ?_, ?_⟩
    · rw [hres]
      simp [lookupKV_insertKV]
    · rw [hres]
    · intro k hk
      rw [hres]
      simp only [lookupKV_insertKV]
      by_cases hks : seq = k
      · simp [hks]
      · simpa [hks] using hk
    · rw [hres]
    · rw [hres]
    · rw [hres]

/-- Witness for C2 on a concrete non-restart arrival. -/
theorem playAudioData_behavior_witness :
    (playWitnessState.latestReceivedSeq ≤ 3 + 100) ∧
    (lookupKV (playAudioData 3 [16384, -16384] playWitnessState).buffer 3 =
        some ([16384, -16384].map decodeSample) ∧
      (playAudioData 3 [16384, -16384] playWitnessState).latestReceivedSeq =
        max playWitnessState.latestReceivedSeq 3 ∧
      (∀ k, (lookupKV playWitnessState.buffer k).isSome →
        (lookupKV (playAudioData 3 [16384, -16384] playWitnessState).buffer k).isSome) ∧
      (playAudioData 3 [16384, -16384] playWitnessState).nextPlaySeq =
        playWitnessState.nextPlaySeq ∧
      (playAudioData 3 [16384, -16384] playWitnessState).isBuffering =
        playWitnessState.isBuffering ∧
      (playAudioData 3 [16384, -16384] playWitnessState).nextPlayTime =
        playWitnessState.nextPlayTime) :=
  ⟨by decide,
    (playAudioData_behavior 3 [16384, -16384] playWitnessState).2 (by decide)⟩

/-! ## Manual resync (claim C3, corrected) -/

/-- C3 counterexample: with only chunk 1000 buffered and
`latestReceivedSeq = 1000`, "go live" sets the next-play pointer to 1000,
which exceeds `latestReceivedSeq - TARGET_BUFFER_SIZE + 1 = 861`; the
claimed upper bound is violated. -/
theorem goLive_pointer_bound_cex :
    (goLive 0 goLiveCexState).nextPlaySeq = some 1000 ∧
    ¬ ((1000 : ℤ) ≤ (goLiveCexState.latestReceivedSeq : ℤ) -
        (TARGET_BUFFER_SIZE : ℤ) + 1) := by
  constructor
  · decide
  · decide

/-- C3 (amended): on a non-empty buffer with oldest key `lo` and newest key
`hi`, "go live" deletes exactly the chunks with key below
`max(lo, hi - TARGET_BUFFER_SIZE)`, points `nextPlaySeq` there, sets
`nextPlayTime := now + 0.05` and clears the delayed flag; the resulting
pointer is never below `lo` and, whenever `hi ≤ latestReceivedSeq`, never
above `max(lo, latestReceivedSeq - TARGET_BUFFER_SIZE)`.  On an empty
buffer it changes nothing. -/
theorem goLive_behavior (now : ℚ) (s : ListenerState) :
    (s.buffer = [] → goLive now s = s) ∧
    (∀ lo hi, minKey? s.buffer = some lo → maxKey? s.buffer = some hi →
      goLive now s =
        { s with
            buffer := s.buffer.filter
              (fun p => decide (max lo (hi - TARGET_BUFFER_SIZE) ≤ p.1))
            nextPlaySeq := some (max lo (hi - TARGET_BUFFER_SIZE))
            nextPlayTime := now + 1 / 20
            isDelayed := false } ∧
      lo ≤ max lo (hi - TARGET_BUFFER_SIZE) ∧
      (hi ≤ s.latestReceivedSeq →
        ((max lo (hi - TARGET_BUFFER_SIZE) : ℕ) : ℤ) ≤
          max (lo : ℤ) ((s.latestReceivedSeq : ℤ) - (TARGET_BUFFER_SIZE : ℤ)))) := by
  constructor
  · intro h
    simp [goLive, h, minKey?]
  · intro lo hi hlo hhi
    refine ⟨?_, le_max_left _ _, ?_⟩
    · rw [goLive, hlo, hhi]
    · intro hle
      have hcast : ((max lo (hi - TARGET_BUFFER_SIZE) : ℕ) : ℤ) =
          max (lo : ℤ) ((hi - TARGET_BUFFER_SIZE : ℕ) : ℤ) := Nat.cast_max _ _
      rw [hcast]
      refine max_le (le_max_left _ _) ?_
      rcases le_or_lt TARGET_BUFFER_SIZE hi with hc | hc
      · refine le_trans ?_ (le_max_right _ _)
        have heq : ((hi - TARGET_BUFFER_SIZE : ℕ) : ℤ) =
            (hi : ℤ) - (TARGET_BUFFER_SIZE : ℤ) := by omega
        rw [heq]
        have hl : (hi : ℤ) ≤ (s.latestReceivedSeq : ℤ) := by exact_mod_cast hle
        linarith
      · refine le_trans ?_ (le_max_left _ _)
        have heq : hi - TARGET_BUFFER_SIZE = 0 := by omega
        rw [heq]
        exact_mod_cast Nat.zero_le lo

/-- Witness for C3 (amended) on the sparse buffer `{0, 200}`. -/
theorem goLive_behavior_witness :
    (minKey? goLiveWitnessState.buffer = some 0 ∧
      maxKey? goLiveWitnessState.buffer = some 200) ∧
    (goLive 0 goLiveWitnessState =
        { goLiveWitnessState with
            buffer := goLiveWitnessState.buffer.filter
              (fun p => decide (max 0 (200 - TARGET_BUFFER_SIZE) ≤ p.1))
            nextPlaySeq := some (max 0 (200 - TARGET_BUFFER_SIZE))
            nextPlayTime := 0 + 1 / 20
            isDelayed := false } ∧
      0 ≤ max 0 (200 - TARGET_BUFFER_SIZE) ∧
      (200 ≤ goLiveWitnessState.latestReceivedSeq →
        ((max 0 (200 - TARGET_BUFFER_SIZE) : ℕ) : ℤ) ≤
          max (0 : ℤ) ((goLiveWitnessState.latestReceivedSeq : ℤ) -
            (TARGET_BUFFER_SIZE : ℤ)))) :=
  ⟨⟨by decide, by decide⟩,
    (goLive_behavior 0 goLiveWitnessState).2 0 200 (by decide) (by decide)⟩

/-! ## Buffering-to-playing transition (claim C1) -/

theorem delaySeconds_nil : delaySeconds ([] : List (ℕ × List ℚ)) = 0 := by
  norm_num [delaySeconds, totalSamples]

theorem buffer_ne_nil_of_delay {b : List (ℕ × List ℚ)}
    (h : TARGET_DELAY_SECONDS ≤ delaySeconds b) : b ≠ [] := by
  intro hnil
  rw [hnil, delaySeconds_nil] at h
  norm_num [TARGET_DELAY_SECONDS] at h

theorem startPlayback_isBuffering (now : ℚ) (s : ListenerState) :
    (startPlayback now s).isBuffering = false := by
  simp only [startPlayback]
  split
  · split <;> rfl
  · rfl

theorem startPlayback_buffer (now : ℚ) (s : ListenerState) :
    (startPlayback now s).buffer = s.buffer := by
  simp only [startPlayback]
  split
  · split <;> rfl
  · rfl

theorem startPlayback_latestReceivedSeq (now : ℚ) (s : ListenerState) :
    (startPlayback now s).latestReceivedSeq = s.latestReceivedSeq := by
  simp only [startPlayback]
  split
  · split <;> rfl
  · rfl

theorem startPlayback_nextPlayTime (now : ℚ) (s : ListenerState) :
    (startPlayback now s).nextPlayTime = max (now + 1 / 5) s.nextPlayTime := by
  simp only [startPlayback]
  split
  · split <;> rfl
  · rfl

theorem startPlayback_nextPlaySeq_resync (now : ℚ) (s : ListenerState)
    (h : s.nextPlaySeq = none ∨
      ∃ q, s.nextPlaySeq = some q ∧ lookupKV s.buffer q = none)
    (hne : s.buffer ≠ []) :
    (startPlayback now s).nextPlaySeq = minKey? s.buffer := by
  obtain ⟨m, hm⟩ := Option.isSome_iff_exists.mp (minKey?_isSome hne)
  have hresync :
      (match s.nextPlaySeq with
        | none => true
        | some q => (lookupKV s.buffer q).isNone) = true := by
    rcases h with h | ⟨q, hq, habs⟩
    · rw [h]
    · rw [hq]
      dsimp only
      rw [habs]
      rfl
  simp only [startPlayback]
  rw [hresync, if_pos rfl, hm]

theorem startPlayback_nextPlaySeq_keep (now : ℚ) (s : ListenerState) (q : ℕ)
    (hq : s.nextPlaySeq = some q) (hin : lookupKV s.buffer q ≠ none) :
    (startPlayback now s).nextPlaySeq = some q := by
  have hkeep :
      (match s.nextPlaySeq with
        | none => true
        | some q => (lookupKV s.buffer q).isNone) = false := by
    rw [hq]
    dsimp only
    cases hlook : lookupKV s.buffer q with
    | none => exact absurd hlook hin
    | some v => rfl
  simp only [startPlayback]
  rw [hkeep]
  simp [hq]

theorem schedulingPhase_isBuffering (now : ℚ) (s : ListenerState)
    (h : ¬ s.nextPlayTime < now) :
    (schedulingPhase now s).1.isBuffering = s.isBuffering := by
  have hu : underrunHit now s = false := by
    rw [underrunHit]
    cases s.nextPlaySeq with
    | none => rfl
    | some q => simp [h]
  simp [schedulingPhase, hu]

/-- C1: a tick taken in the buffering state compares the buffered duration
against `TARGET_DELAY_SECONDS`.  Below the threshold it changes nothing and
schedules nothing.  At or above it, the tick runs the transition
(`startPlayback`) and then the normal scheduling phase; the transition
switches to playing, leaves the buffer and latest-received counter alone,
sets the scheduled play time to `max(now + 0.2, previous)`, and
resynchronizes the pointer to the least buffered sequence exactly when it
was unset or absent from the buffer.  The tick ends in the playing state
iff the threshold was reached, so the transition fires exactly once per
buffering episode. -/
theorem scheduleAudio_buffering_transition (now : ℚ) (s : ListenerState)
    (hb : s.isBuffering = true) :
    (delaySeconds s.buffer < TARGET_DELAY_SECONDS → scheduleAudio now s = (s, [])) ∧
    (TARGET_DELAY_SECONDS ≤ delaySeconds s.buffer →
      scheduleAudio now s = schedulingPhase now (startPlayback now s) ∧
      (startPlayback now s).isBuffering = false ∧
      (startPlayback now s).buffer = s.buffer ∧
      (startPlayback now s).latestReceivedSeq = s.latestReceivedSeq ∧
      (startPlayback now s).nextPlayTime = max (now + 1 / 5) s.nextPlayTime ∧
      ((s.nextPlaySeq = none ∨
          ∃ q, s.nextPlaySeq = some q ∧ lookupKV s.buffer q = none) →
        (startPlayback now s).nextPlaySeq = minKey? s.buffer) ∧
      (∀ q, s.nextPlaySeq = some q → lookupKV s.buffer q ≠ none →
        (startPlayback now s).nextPlaySeq = some q)) ∧
    ((scheduleAudio now s).1.isBuffering = false ↔
      TARGET_DELAY_SECONDS ≤ delaySeconds s.buffer) := by
  refine ⟨?_, ?_, ?_⟩
  · intro h
    simp [scheduleAudio, hb, not_le.mpr h]
  · intro h
    refine ⟨by simp [scheduleAudio, hb, h], startPlayback_isBuffering now s,
      startPlayback_buffer now s, startPlayback_latestReceivedSeq now s,
      startPlayback_nextPlayTime now s, ?_, ?_⟩
    · intro hre
      exact startPlayback_nextPlaySeq_resync now s hre (buffer_ne_nil_of_delay h)
    · intro q hq hin
      exact startPlayback_nextPlaySeq_keep now s q hq hin
  · constructor
    · intro hflag
      by_contra hlt
      rw [scheduleAudio, hb] at hflag
      simp only [if_true] at hflag
      rw [if_neg hlt] at hflag
      simp [hb] at hflag
    · intro h
      have heq : scheduleAudio now s = schedulingPhase now (startPlayback now s) := by
        simp [scheduleAudio, hb, h]
      rw [heq]
      have htime : ¬ (startPlayback now s).nextPlayTime < now := by
        rw [startPlayback_nextPlayTime]
        have h1 : now + 1 / 5 ≤ max (now + 1 / 5) s.nextPlayTime := le_max_left _ _
        intro hcon
        linarith
      rw [schedulingPhase_isBuffering now _ htime]
      exact startPlayback_isBuffering now s

/-- Witness for C1 on a freshly buffering listener with an empty buffer. -/
theorem scheduleAudio_buffering_transition_witness :
    bufferingWitnessState.isBuffering = true ∧
    (delaySeconds bufferingWitnessState.buffer < TARGET_DELAY_SECONDS →
      scheduleAudio 0 bufferingWitnessState = (bufferingWitnessState, [])) ∧
    ((scheduleAudio 0 bufferingWitnessState).1.isBuffering = false ↔
      TARGET_DELAY_SECONDS ≤ delaySeconds bufferingWitnessState.buffer) :=
  ⟨rfl,
    (scheduleAudio_buffering_transition 0 bufferingWitnessState rfl).1,
    (scheduleAudio_buffering_transition 0 bufferingWitnessState rfl).2.2⟩

/-! ## Tick idempotence (claim C5, corrected) -/

theorem lookupKV_eraseKV_none {κ α : Type} [DecidableEq κ]
    {l : List (κ × α)} {k : κ} (k' : κ) (h : lookupKV l k = none) :
    lookupKV (eraseKV l k') k = none := by
  by_contra hc
  have hs : (lookupKV (eraseKV l k') k).isSome :=
    Option.ne_none_iff_isSome.mp hc
  have := isSome_of_lookupKV_eraseKV l k' k hs
  rw [h] at this
  simp at this

theorem schedLoop_nil (now : ℚ) (fuel : ℕ) (np : Option ℕ) (t : ℚ) :
    schedLoop now fuel np t [] = ⟨np, t, [], []⟩ := by
  cases fuel with
  | zero => rfl
  | succ n =>
      cases np with
      | none => rfl
      | some q => rfl

theorem schedLoop_scheduled_isSome (now : ℚ) :
    ∀ (fuel : ℕ) (np : Option ℕ) (t : ℚ) (b : List (ℕ × List ℚ)),
      ∀ q ∈ (schedLoop now fuel np t b).scheduled, (lookupKV b q).isSome := by
  intro fuel
  induction fuel with
  | zero => intro np t b q hq; simp [schedLoop] at hq
  | succ n ih =>
      intro np t b q hq
      cases np with
      | none => simp [schedLoop] at hq
      | some p =>
          simp only [schedLoop] at hq
          cases hl : lookupKV b p with
          | none => rw [hl] at hq; simp at hq
          | some samples =>
              rw [hl] at hq
              dsimp only at hq
              by_cases ht : t < now + SCHEDULE_AHEAD_TIME
              · rw [if_pos ht] at hq
                dsimp only at hq
                rcases List.mem_cons.mp hq with rfl | hq'
                · simp [hl]
                · have hrec := ih (some (p + 1)) _ (eraseKV b p) q hq'
                  exact isSome_of_lookupKV_eraseKV b p q hrec
              · rw [if_neg ht] at hq
                simp at hq

theorem schedLoop_buffer_none_mono (now : ℚ) :
    ∀ (fuel : ℕ) (np : Option ℕ) (t : ℚ) (b : List (ℕ × List ℚ)) (k : ℕ),
      lookupKV b k = none →
      lookupKV (schedLoop now fuel np t b).buffer k = none := by
  intro fuel
  induction fuel with
  | zero => intro np t b k h; simpa [schedLoop] using h
  | succ n ih =>
      intro np t b k h
      cases np with
      | none => simpa [schedLoop] using h
      | some p =>
          simp only [schedLoop]
          cases hl : lookupKV b p with
          | none => exact h
          | some samples =>
              dsimp only
              by_cases ht : t < now + SCHEDULE_AHEAD_TIME
              · rw [if_pos ht]
                dsimp only
                exact ih (some (p + 1)) _ (eraseKV b p) k
                  (lookupKV_eraseKV_none p h)
              · rw [if_neg ht]
                exact h

theorem schedLoop_scheduled_removed (now : ℚ) :
    ∀ (fuel : ℕ) (np : Option ℕ) (t : ℚ) (b : List (ℕ × List ℚ)),
      (b.map Prod.fst).Nodup →
      ∀ q ∈ (schedLoop now fuel np t b).scheduled,
        lookupKV (schedLoop now fuel np t b).buffer q = none := by
  intro fuel
  induction fuel with
  | zero => intro np t b _ q hq; simp [schedLoop] at hq
  | succ n ih =>
      intro np t b hnd q hq
      cases np with
      | none => simp [schedLoop] at hq
      | some p =>
          simp only [schedLoop] at hq ⊢
          cases hl : lookupKV b p with
          | none => rw [hl] at hq; simp at hq
          | some samples =>
              rw [hl] at hq
              dsimp only at hq ⊢
              by_cases ht : t < now + SCHEDULE_AHEAD_TIME
              · rw [if_pos ht] at hq ⊢
                dsimp only at hq ⊢
                rcases List.mem_cons.mp hq with rfl | hq'
                · exact schedLoop_buffer_none_mono now n _ _ _ q
                    (lookupKV_eraseKV_self hnd q)
                · exact ih (some (p + 1)) _ (eraseKV b p)
                    (nodup_keys_eraseKV hnd p) q hq'
              · rw [if_neg ht] at hq
                simp at hq

theorem schedulingPhase_underrun_eq (now : ℚ) (s : ListenerState)
    (h : underrunHit now s = true) :
    schedulingPhase now s = ({ s with isBuffering := true }, []) := by
  simp [schedulingPhase, h]

theorem schedulingPhase_scheduled_eq (now : ℚ) (s : ListenerState)
    (h : underrunHit now s = false) :
    (schedulingPhase now s).2 =
      (schedLoop now maxChunksPerCycle s.nextPlaySeq
        (if s.nextPlayTime - now < 0 then now + 1 / 20 else s.nextPlayTime)
        s.buffer).scheduled := by
  simp [schedulingPhase, h]

theorem schedulingPhase_buffer_eq (now : ℚ) (s : ListenerState)
    (h : underrunHit now s = false) :
    (schedulingPhase now s).1.buffer =
      (schedLoop now maxChunksPerCycle s.nextPlaySeq
        (if s.nextPlayTime - now < 0 then now + 1 / 20 else s.nextPlayTime)
        s.buffer).buffer := by
  simp [schedulingPhase, h]

theorem schedulingPhase_scheduled_isSome (now : ℚ) (s : ListenerState) :
    ∀ q ∈ (schedulingPhase now s).2, (lookupKV s.buffer q).isSome := by
  intro q hq
  cases hu : underrunHit now s with
  | true => rw [schedulingPhase_underrun_eq now s hu] at hq; simp at hq
  | false =>
      rw [schedulingPhase_scheduled_eq now s hu] at hq
      exact schedLoop_scheduled_isSome now _ _ _ _ q hq

theorem schedulingPhase_scheduled_removed (now : ℚ) (s : ListenerState)
    (hnd : (s.buffer.map Prod.fst).Nodup) :
    ∀ q ∈ (schedulingPhase now s).2,
      lookupKV (schedulingPhase now s).1.buffer q = none := by
  intro q hq
  cases hu : underrunHit now s with
  | true => rw [schedulingPhase_underrun_eq now s hu] at hq; simp at hq
  | false =>
      rw [schedulingPhase_scheduled_eq now s hu] at hq
      rw [schedulingPhase_buffer_eq now s hu]
      exact schedLoop_scheduled_removed now _ _ _ _ hnd q hq

theorem scheduleAudio_cases (now : ℚ) (s : ListenerState) :
    scheduleAudio now s = (s, []) ∨
    (∃ s', s'.buffer = s.buffer ∧
      scheduleAudio now s = schedulingPhase now s') := by
  rw [scheduleAudio]
  by_cases hb : s.isBuffering = true
  · rw [if_pos hb]
    by_cases hd : TARGET_DELAY_SECONDS ≤ delaySeconds s.buffer
    · rw [if_pos hd]
      exact Or.inr ⟨startPlayback now s, startPlayback_buffer now s, rfl⟩
    · rw [if_neg hd]
      exact Or.inl rfl
  · rw [if_neg hb]
    exact Or.inr ⟨s, rfl, rfl⟩

theorem scheduleAudio_scheduled_isSome (now : ℚ) (s : ListenerState) :
    ∀ q ∈ (scheduleAudio now s).2, (lookupKV s.buffer q).isSome := by
  intro q hq
  rcases scheduleAudio_cases now s with h | ⟨s', hbuf, h⟩
  · rw [h] at hq; simp at hq
  · rw [h] at hq
    have := schedulingPhase_scheduled_isSome now s' q hq
    rwa [hbuf] at this

theorem scheduleAudio_scheduled_removed (now : ℚ) (s : ListenerState)
    (hnd : (s.buffer.map Prod.fst).Nodup) :
    ∀ q ∈ (scheduleAudio now s).2,
      lookupKV (scheduleAudio now s).1.buffer q = none := by
  intro q hq
  rcases scheduleAudio_cases now s with h | ⟨s', hbuf, h⟩
  · rw [h] at hq; simp at hq
  · rw [h] at hq ⊢
    exact schedulingPhase_scheduled_removed now s' (hbuf ▸ hnd) q hq

theorem schedLoop_step (now : ℚ) (fuel : ℕ) (q : ℕ) (t : ℚ)
    (b : List (ℕ × List ℚ)) (samples : List ℚ)
    (hl : lookupKV b q = some samples) (ht : t < now + SCHEDULE_AHEAD_TIME) :
    schedLoop now (fuel + 1) (some q) t b =
      ⟨(schedLoop now fuel (some (q + 1))
          (t + ((samples.length / 2 : ℕ) : ℚ) / (SAMPLE_RATE : ℚ)) (eraseKV b q)).nextPlaySeq,
       (schedLoop now fuel (some (q + 1))
          (t + ((samples.length / 2 : ℕ) : ℚ) / (SAMPLE_RATE : ℚ)) (eraseKV b q)).nextPlayTime,
       (schedLoop now fuel (some (q + 1))
          (t + ((samples.length / 2 : ℕ) : ℚ) / (SAMPLE_RATE : ℚ)) (eraseKV b q)).buffer,
       q :: (schedLoop now fuel (some (q + 1))
          (t + ((samples.length / 2 : ℕ) : ℚ) / (SAMPLE_RATE : ℚ)) (eraseKV b q)).scheduled⟩ := by
  simp only [schedLoop]
  rw [hl]
  dsimp only
  rw [if_pos ht]

/-- C5 counterexample: from `tickTwiceCexState` (playing, pointer 5 missing,
12 s of audio buffered under key 6, scheduled time expired), the first tick
at clock 1 schedules nothing and re-enters buffering, and a second tick at
the same clock value schedules chunk 6 — so the second tick does not
"schedule zero chunks and leave the buffer, pointer and play time
unchanged" as the claim states. -/
theorem second_tick_not_noop_cex :
    (scheduleAudio 1 tickTwiceCexState).2 = [] ∧
    (scheduleAudio 1 (scheduleAudio 1 tickTwiceCexState).1).2 = [6] := by
  have hu : underrunHit 1 tickTwiceCexState = true := by
    rw [underrunHit]
    dsimp only [tickTwiceCexState]
    norm_num [lookupKV]
  have hb : tickTwiceCexState.isBuffering = false := rfl
  have h1 : scheduleAudio 1 tickTwiceCexState = (tickTwiceCexState1, []) := by
    rw [scheduleAudio, if_neg (by rw [hb]; simp),
      schedulingPhase_underrun_eq 1 tickTwiceCexState hu]
    rfl
  refine ⟨by rw [h1], ?_⟩
  rw [h1]
  have hb1 : tickTwiceCexState1.isBuffering = true := rfl
  have hdel : delaySeconds tickTwiceCexState1.buffer = 12 := by
    have hlen : bigChunk.length = 1152000 := List.length_replicate _ _
    norm_num [delaySeconds, totalSamples, tickTwiceCexState1, hlen, SAMPLE_RATE]
  have hge : TARGET_DELAY_SECONDS ≤ delaySeconds tickTwiceCexState1.buffer := by
    rw [hdel]; norm_num [TARGET_DELAY_SECONDS]
  have hsp : startPlayback 1 tickTwiceCexState1 = tickTwiceCexState2 := by
    have hres :
        (match tickTwiceCexState1.nextPlaySeq with
          | none => true
          | some q => (lookupKV tickTwiceCexState1.buffer q).isNone) = true := by
      dsimp only [tickTwiceCexState1]
      norm_num [lookupKV]
    simp only [startPlayback]
    rw [hres, if_pos rfl]
    have hmin : minKey? tickTwiceCexState1.buffer = some 6 := by
      dsimp only [tickTwiceCexState1]
      norm_num [minKey?]
    rw [hmin]
    dsimp only [tickTwiceCexState1, tickTwiceCexState2]
    simp only [ListenerState.mk.injEq]
    norm_num
  rw [scheduleAudio, if_pos hb1, if_pos hge, hsp]
  have hu2 : underrunHit 1 tickTwiceCexState2 = false := by
    rw [underrunHit]
    dsimp only [tickTwiceCexState2]
    norm_num [lookupKV]
  rw [schedulingPhase_scheduled_eq 1 tickTwiceCexState2 hu2]
  have ht0 : (if tickTwiceCexState2.nextPlayTime - 1 < 0 then (1 : ℚ) + 1 / 20
      else tickTwiceCexState2.nextPlayTime) = 6 / 5 := by
    norm_num [tickTwiceCexState2]
  rw [ht0]
  have h20 : maxChunksPerCycle = 19 + 1 := rfl
  have hnp2 : tickTwiceCexState2.nextPlaySeq = some 6 := rfl
  have hbuf2 : tickTwiceCexState2.buffer = [(6, bigChunk)] := rfl
  rw [h20, hnp2, hbuf2]
  rw [schedLoop_step 1 19 6 (6 / 5) [(6, bigChunk)] bigChunk
    (by norm_num [lookupKV]) (by norm_num [SCHEDULE_AHEAD_TIME])]
  rw [show eraseKV [(6, bigChunk)] 6 = [] from rfl]
  rw [schedLoop_nil]

/-- C5 (amended): sequence numbers are scheduled at most once — the
scheduling loop deletes each chunk as it schedules it, so a second tick at
the same clock value never re-schedules a sequence the first tick
scheduled.  (The stronger frozen claim — that the second tick schedules
zero chunks and leaves the state unchanged — fails, see the
counterexample: a first tick that re-enters buffering via underrun while a
threshold's worth of audio is still buffered makes the second tick
transition back and schedule new chunks.) -/
theorem tick_schedules_disjoint (now : ℚ) (s : ListenerState)
    (hnd : (s.buffer.map Prod.fst).Nodup) :
    ∀ q ∈ (scheduleAudio now s).2,
      q ∉ (scheduleAudio now (scheduleAudio now s).1).2 := by
  intro q hq hq2
  have h1 : lookupKV (scheduleAudio now s).1.buffer q = none :=
    scheduleAudio_scheduled_removed now s hnd q hq
  have h2 : (lookupKV (scheduleAudio now s).1.buffer q).isSome :=
    scheduleAudio_scheduled_isSome now _ q hq2
  rw [h1] at h2
  simp at h2

/-- Witness for C5 (amended) on the concrete state with chunks 6..10
buffered. -/
theorem tick_schedules_disjoint_witness :
    (underrunWitnessState.buffer.map Prod.fst).Nodup ∧
    ∀ q ∈ (scheduleAudio 1 underrunWitnessState).2,
      q ∉ (scheduleAudio 1 (scheduleAudio 1 underrunWitnessState).1).2 :=
  ⟨by decide, tick_schedules_disjoint 1 underrunWitnessState (by decide)⟩

/-! ## Registry invariant (claim C8) -/

theorem lookupKV_eraseKV_ne {κ α : Type} [DecidableEq κ]
    {l : List (κ × α)} {k k' : κ} (h : k' ≠ k) :
    lookupKV (eraseKV l k) k' = lookupKV l k' := by
  induction l with
  | nil => rfl
  | cons hd t ih =>
      obtain ⟨k1, v1⟩ := hd
      by_cases h1 : k1 = k
      · rw [eraseKV, if_pos h1, lookupKV, if_neg (h1 ▸ fun hk => h hk.symm)]
      · rw [eraseKV, if_neg h1, lookupKV, lookupKV]
        by_cases h2 : k1 = k'
        · rw [if_pos h2, if_pos h2]
        · rw [if_neg h2, if_neg h2, ih]

theorem wellFormed_empty : WellFormedStorage emptyStorage := by
  intro pr hpr
  simp [emptyStorage] at hpr

theorem wellFormed_applyOp (op : StorageOp) (s : MemStorage)
    (h : WellFormedStorage s) : WellFormedStorage (applyOp op s) := by
  cases op with
  | createRoom roomId hostId now =>
      intro pr hpr
      simp only [applyOp, createRoom] at hpr ⊢
      rw [lookupKV_insertKV]
      by_cases hk : roomId = pr.2.roomId
      · rw [if_pos hk]; rfl
      · rw [if_neg hk]
        exact h pr hpr
  | addListener roomId listenerId now =>
      intro pr hpr
      simp only [applyOp, addListener] at hpr ⊢
      cases hr : lookupKV s.rooms roomId with
      | none =>
          rw [hr] at hpr
          exact h pr hpr
      | some room =>
          rw [hr] at hpr
          dsimp only at hpr
          rcases mem_insertKV _ _ _ pr hpr with hmem | rfl
          · exact h pr hmem
          · dsimp only
            rw [hr]
            rfl
  | removeListener roomId listenerId =>
      intro pr hpr
      simp only [applyOp, removeListener] at hpr ⊢
      cases hp : lookupKV s.participants listenerId with
      | none =>
          rw [hp] at hpr
          exact h pr hpr
      | some p =>
          rw [hp] at hpr
          dsimp only at hpr ⊢
          by_cases hq : p.roomId = roomId
          · rw [if_pos hq] at hpr ⊢
            dsimp only at hpr ⊢
            exact h pr (mem_of_mem_eraseKV _ _ pr hpr)
          · rw [if_neg hq] at hpr ⊢
            exact h pr hpr
  | deleteRoom roomId =>
      intro pr hpr
      simp only [applyOp, deleteRoom] at hpr ⊢
      have hmem := List.mem_filter.mp hpr
      have hne : pr.2.roomId ≠ roomId := by
        have h2 := hmem.2
        simp only [Bool.not_eq_true', decide_eq_false_iff_not] at h2
        exact h2
      rw [lookupKV_eraseKV_ne hne]
      exact h pr hmem.1

theorem wellFormed_runOps (ops : List StorageOp) :
    ∀ s, WellFormedStorage s → WellFormedStorage (runOps ops s) := by
  induction ops with
  | nil => intro s h; exact h
  | cons op t ih =>
      intro s h
      exact ih _ (wellFormed_applyOp op s h)

/-- C8: the session registry never holds an orphaned listener membership:
`addListener` refuses (returning `false`, leaving the store untouched) when
the room is absent, `deleteRoom` removes every membership of the deleted
room, and every sequence of `createRoom` / `addListener` /
`removeListener` / `deleteRoom` operations from the empty store keeps the
invariant that each membership's room id is present in the room table. -/
theorem memStorage_no_orphans :
    (∀ ops : List StorageOp, WellFormedStorage (runOps ops emptyStorage)) ∧
    (∀ (roomId listenerId : String) (now : ℚ) (s : MemStorage),
      lookupKV s.rooms roomId = none →
      addListener roomId listenerId now s = (s, false)) ∧
    (∀ (roomId : String) (s : MemStorage),
      ((deleteRoom roomId s).1.participants.filter
        (fun pr => decide (pr.2.roomId = roomId))) = []) := by
  refine ⟨fun ops => wellFormed_runOps ops emptyStorage wellFormed_empty, ?_, ?_⟩
  · intro roomId listenerId now s h
    simp [addListener, h]
  · intro roomId s
    simp only [deleteRoom]
    apply List.filter_eq_nil_iff.mpr
    intro a ha
    have h2 := (List.mem_filter.mp ha).2
    simp only [Bool.not_eq_true', decide_eq_false_iff_not] at h2
    simp [h2]

/-- Witness for C8: create a room, add a listener, delete the room; plus a
rejected `addListener` on the empty store. -/
theorem memStorage_no_orphans_witness :
    WellFormedStorage (runOps
      [StorageOp.createRoom "R" "h" 0, StorageOp.addListener "R" "l" 0,
        StorageOp.deleteRoom "R"] emptyStorage) ∧
    (lookupKV emptyStorage.rooms "X" = none ∧
      addListener "X" "l" 0 emptyStorage = (emptyStorage, false)) :=
  ⟨memStorage_no_orphans.1 _,
    ⟨rfl, memStorage_no_orphans.2.1 "X" "l" 0 emptyStorage rfl⟩⟩

/-! ## Underrun detection (claim C4) -/

/-- C4: a tick in the playing state whose set next-play sequence is absent
from the buffer after its scheduled time has passed only flips the state
back to buffering: no chunk is scheduled and the pointer and the entire
buffer are left untouched. -/
theorem scheduleAudio_underrun_rebuffers (now : ℚ) (s : ListenerState) (q : ℕ)
    (hq : s.nextPlaySeq = some q) (habs : lookupKV s.buffer q = none)
    (hplay : s.isBuffering = false) (hlate : s.nextPlayTime < now) :
    scheduleAudio now s = ({ s with isBuffering := true }, []) := by
  have hu : underrunHit now s = true := by
    rw [underrunHit, hq]
    simp [habs, hplay, hlate]
  simp [scheduleAudio, hplay, schedulingPhase, hu]

/-- Witness for C4: Scenario D — pointer 5 missing, chunks 6..10 buffered;
the tick re-buffers and every chunk 6..10 stays in the buffer. -/
theorem scheduleAudio_underrun_rebuffers_witness :
    (underrunWitnessState.nextPlaySeq = some 5 ∧
      lookupKV underrunWitnessState.buffer 5 = none ∧
      underrunWitnessState.isBuffering = false ∧
      underrunWitnessState.nextPlayTime < 1) ∧
    scheduleAudio 1 underrunWitnessState =
      ({ underrunWitnessState with isBuffering := true }, []) :=
  ⟨⟨rfl, by decide, rfl, by decide⟩,
    scheduleAudio_underrun_rebuffers 1 underrunWitnessState 5 rfl (by decide)
      rfl (by decide)⟩
/-! ## Relay coordinator (claims C6 and C7) -/

theorem filter_insertKV_eq {κ α : Type} [DecidableEq κ] {l : List (κ × α)}
    {k : κ} {v : α} (w : α) (P : κ × α → Bool) (h : lookupKV l k = some v)
    (hv : P (k, v) = false) (hw : P (k, w) = false) :
    (insertKV l k w).filter P = l.filter P := by
  induction l with
  | nil => simp [lookupKV] at h
  | cons hd t ih =>
      obtain ⟨k1, v1⟩ := hd
      by_cases h1 : k1 = k
      · subst h1
        rw [lookupKV, if_pos rfl] at h
        injection h with hv1
        subst hv1
        rw [insertKV, if_pos rfl, List.filter_cons, List.filter_cons, hv, hw]
        simp
      · rw [lookupKV, if_neg h1] at h
        rw [insertKV, if_neg h1, List.filter_cons, List.filter_cons, ih h]

theorem broadcastToListeners_eq_map (st : ServerState) (roomId : String)
    (m : OutMsg) :
    broadcastToListeners st roomId m =
      (listenerIds st roomId).map (fun l => (l, m)) := by
  rw [broadcastToListeners, listenerIds, List.map_map]
  rfl

theorem listenerIds_insert_host (st : ServerState) (stor : MemStorage)
    (cid : String) (conn conn' : ClientConnection) (roomId : String)
    (hconn : lookupKV st.clients cid = some conn) (hhost : conn.isHost = true)
    (hhost' : conn'.isHost = true) :
    listenerIds ⟨insertKV st.clients cid conn', stor⟩ roomId =
      listenerIds st roomId := by
  rw [listenerIds, listenerIds]
  congr 1
  exact filter_insertKV_eq conn' _ hconn (by simp [hhost]) (by simp [hhost'])

theorem listenerIds_nodup (st : ServerState) (roomId : String)
    (hnd : (st.clients.map Prod.fst).Nodup) :
    (listenerIds st roomId).Nodup :=
  ((List.filter_sublist st.clients).map Prod.fst).nodup hnd

theorem filter_map_const_msg {ids : List String} {L : String} (m : OutMsg)
    (hnd : ids.Nodup) (hL : L ∈ ids) :
    ((ids.map (fun l => (l, m))).filter
      (fun p => decide (p.1 = L))).map Prod.snd = [m] := by
  induction ids with
  | nil => simp at hL
  | cons a t ih =>
      simp only [List.map_cons, List.filter_cons]
      rcases List.mem_cons.mp hL with rfl | hL'
      · rw [if_pos (by simp)]
        have hnot : L ∉ t := (List.nodup_cons.mp hnd).1
        have hnil : (t.map (fun l => (l, m))).filter
            (fun p => decide (p.1 = L)) = [] := by
          apply List.filter_eq_nil_iff.mpr
          intro p hp
          rcases List.mem_map.mp hp with ⟨x, hx, rfl⟩
          simp only [decide_eq_true_eq]
          intro hxL
          exact hnot (hxL ▸ hx)
        rw [hnil]
        rfl
      · have hne : a ≠ L := fun h => (List.nodup_cons.mp hnd).1 (h ▸ hL')
        rw [if_neg (by simp [hne])]
        exact ih (List.nodup_cons.mp hnd).2 hL'

theorem setRoomActive_active (roomId : String) (b : Bool) (s : MemStorage)
    (room : Room) (h : lookupKV s.rooms roomId = some room) :
    lookupKV (setRoomActive roomId b s).rooms roomId =
      some { room with isActive := b } := by
  rw [setRoomActive, h]
  dsimp only
  rw [lookupKV_insertKV, if_pos rfl]

/-- Evaluation of the `audio_data` handler: source not yet streaming,
valid payload — streaming transition then relay. -/
theorem handleAudioData_first_valid (cid data : String) (seq : Option ℕ)
    (ts : Option ℚ) (now : ℚ) (st : ServerState) (conn : ClientConnection)
    (roomId : String) (hconn : lookupKV st.clients cid = some conn)
    (hroom : conn.roomId = some roomId) (hhost : conn.isHost = true)
    (hns : conn.isStreaming = false)
    (h0 : data.length ≠ 0) (hbig : ¬ 5242880 < data.length) :
    handleAudioData cid data seq ts now st =
      (⟨insertKV st.clients cid
          { conn with lastAudioTime := now, isStreaming := true },
        setRoomActive roomId true st.storage⟩,
       broadcastToListeners
          ⟨insertKV st.clients cid
            { conn with lastAudioTime := now, isStreaming := true },
           setRoomActive roomId true st.storage⟩ roomId OutMsg.hostStreaming ++
        broadcastToListeners
          ⟨insertKV st.clients cid
            { conn with lastAudioTime := now, isStreaming := true },
           setRoomActive roomId true st.storage⟩ roomId
          (OutMsg.audioData data seq ts)) := by
  simp [handleAudioData, hconn, hroom, hhost, hns, h0, hbig]

/-- Evaluation of the `audio_data` handler: source not yet streaming,
empty or oversized payload — streaming transition fires but the chunk is
dropped. -/
theorem handleAudioData_first_dropped (cid data : String) (seq : Option ℕ)
    (ts : Option ℚ) (now : ℚ) (st : ServerState) (conn : ClientConnection)
    (roomId : String) (hconn : lookupKV st.clients cid = some conn)
    (hroom : conn.roomId = some roomId) (hhost : conn.isHost = true)
    (hns : conn.isStreaming = false)
    (hbad : data.length = 0 ∨ 5242880 < data.length) :
    handleAudioData cid data seq ts now st =
      (⟨insertKV st.clients cid
          { conn with lastAudioTime := now, isStreaming := true },
        setRoomActive roomId true st.storage⟩,
       broadcastToListeners
          ⟨insertKV st.clients cid
            { conn with lastAudioTime := now, isStreaming := true },
           setRoomActive roomId true st.storage⟩ roomId
          OutMsg.hostStreaming) := by
  rcases hbad with h0 | hbig
  · simp [handleAudioData, hconn, hroom, hhost, hns, h0]
  · have h0 : data.length ≠ 0 := by omega
    simp [handleAudioData, hconn, hroom, hhost, hns, h0, hbig]

/-- Evaluation of the `audio_data` handler: source already streaming,
valid payload — relay only. -/
theorem handleAudioData_streaming_valid (cid data : String) (seq : Option ℕ)
    (ts : Option ℚ) (now : ℚ) (st : ServerState) (conn : ClientConnection)
    (roomId : String) (hconn : lookupKV st.clients cid = some conn)
    (hroom : conn.roomId = some roomId) (hhost : conn.isHost = true)
    (hs : conn.isStreaming = true)
    (h0 : data.length ≠ 0) (hbig : ¬ 5242880 < data.length) :
    handleAudioData cid data seq ts now st =
      (⟨insertKV st.clients cid { conn with lastAudioTime := now },
        st.storage⟩,
       broadcastToListeners
          ⟨insertKV st.clients cid { conn with lastAudioTime := now },
           st.storage⟩ roomId (OutMsg.audioData data seq ts)) := by
  simp [handleAudioData, hconn, hroom, hhost, hs, h0, hbig]

/-- Evaluation of the `audio_data` handler: source already streaming,
empty or oversized payload — nothing is sent at all. -/
theorem handleAudioData_streaming_dropped (cid data : String) (seq : Option ℕ)
    (ts : Option ℚ) (now : ℚ) (st : ServerState) (conn : ClientConnection)
    (roomId : String) (hconn : lookupKV st.clients cid = some conn)
    (hroom : conn.roomId = some roomId) (hhost : conn.isHost = true)
    (hs : conn.isStreaming = true)
    (hbad : data.length = 0 ∨ 5242880 < data.length) :
    handleAudioData cid data seq ts now st =
      (⟨insertKV st.clients cid { conn with lastAudioTime := now },
        st.storage⟩, []) := by
  rcases hbad with h0 | hbig
  · simp [handleAudioData, hconn, hroom, hhost, hs, h0]
  · have h0 : data.length ≠ 0 := by omega
    simp [handleAudioData, hconn, hroom, hhost, hs, h0, hbig]

/-- A source already marked streaming never triggers another
`host_streaming` broadcast. -/
theorem no_hostStreaming_of_streaming (cid data : String) (seq : Option ℕ)
    (ts : Option ℚ) (now : ℚ) (st : ServerState) (conn : ClientConnection)
    (roomId : String) (hconn : lookupKV st.clients cid = some conn)
    (hroom : conn.roomId = some roomId) (hhost : conn.isHost = true)
    (hs : conn.isStreaming = true) :
    ∀ p ∈ (handleAudioData cid data seq ts now st).2,
      p.2 ≠ OutMsg.hostStreaming := by
  intro p hp
  by_cases h0 : data.length = 0
  · rw [handleAudioData_streaming_dropped cid data seq ts now st conn roomId
      hconn hroom hhost hs (Or.inl h0)] at hp
    simp at hp
  · by_cases hbig : 5242880 < data.length
    · rw [handleAudioData_streaming_dropped cid data seq ts now st conn roomId
        hconn hroom hhost hs (Or.inr hbig)] at hp
      simp at hp
    · rw [handleAudioData_streaming_valid cid data seq ts now st conn roomId
        hconn hroom hhost hs h0 hbig, broadcastToListeners_eq_map] at hp
      rcases List.mem_map.mp hp with ⟨x, _, rfl⟩
      simp

/-- C6: the first valid `audio_data` from a room's source sets the
streaming flag, marks the room active, and broadcasts `host_streaming` to
every currently registered listener before relaying the chunk; each
listener's message sequence for this processing is exactly
`[host_streaming, audio_data]` with identical fields, and no later
`audio_data` of the session ever produces another `host_streaming`. -/
theorem audio_data_first_chunk (cid data : String) (seq : Option ℕ)
    (ts : Option ℚ) (now : ℚ) (st : ServerState) (conn : ClientConnection)
    (roomId : String) (room : Room)
    (hconn : lookupKV st.clients cid = some conn)
    (hroom : conn.roomId = some roomId) (hhost : conn.isHost = true)
    (hns : conn.isStreaming = false)
    (hroomex : lookupKV st.storage.rooms roomId = some room)
    (h0 : data.length ≠ 0) (hbig : ¬ 5242880 < data.length)
    (hnd : (st.clients.map Prod.fst).Nodup) :
    ((lookupKV (handleAudioData cid data seq ts now st).1.clients cid).map
        ClientConnection.isStreaming = some true) ∧
    ((lookupKV (handleAudioData cid data seq ts now st).1.storage.rooms
        roomId).map Room.isActive = some true) ∧
    ((handleAudioData cid data seq ts now st).2 =
      (listenerIds st roomId).map (fun l => (l, OutMsg.hostStreaming)) ++
      (listenerIds st roomId).map (fun l => (l, OutMsg.audioData data seq ts))) ∧
    (∀ L ∈ listenerIds st roomId,
      (((handleAudioData cid data seq ts now st).2.filter
        (fun p => decide (p.1 = L))).map Prod.snd) =
        [OutMsg.hostStreaming, OutMsg.audioData data seq ts]) ∧
    (∀ (d2 : String) (s2 : Option ℕ) (t2 : Option ℚ) (n2 : ℚ),
      ∀ p ∈ (handleAudioData cid d2 s2 t2 n2
          (handleAudioData cid data seq ts now st).1).2,
        p.2 ≠ OutMsg.hostStreaming) := by
  have heval := handleAudioData_first_valid cid data seq ts now st conn roomId
    hconn hroom hhost hns h0 hbig
  have hids :
      listenerIds
        ⟨insertKV st.clients cid
          { conn with lastAudioTime := now, isStreaming := true },
         setRoomActive roomId true st.storage⟩ roomId =
      listenerIds st roomId :=
    listenerIds_insert_host st _ cid conn _ roomId hconn hhost hhost
  have hout : (handleAudioData cid data seq ts now st).2 =
      (listenerIds st roomId).map (fun l => (l, OutMsg.hostStreaming)) ++
      (listenerIds st roomId).map (fun l => (l, OutMsg.audioData data seq ts)) := by
    rw [heval]
    dsimp only
    rw [broadcastToListeners_eq_map, broadcastToListeners_eq_map, hids]
  refine ⟨?_, ?_, hout, ?_, ?_⟩
  · rw [heval]
    dsimp only
    rw [lookupKV_insertKV, if_pos rfl]
    rfl
  · rw [heval]
    dsimp only
    rw [setRoomActive_active roomId true st.storage room hroomex]
    rfl
  · intro L hL
    rw [hout, List.filter_append, List.map_append,
      filter_map_const_msg OutMsg.hostStreaming
        (listenerIds_nodup st roomId hnd) hL,
      filter_map_const_msg (OutMsg.audioData data seq ts)
        (listenerIds_nodup st roomId hnd) hL]
    rfl
  · intro d2 s2 t2 n2 p hp
    rw [heval] at hp
    exact no_hostStreaming_of_streaming cid d2 s2 t2 n2 _
      { conn with lastAudioTime := now, isStreaming := true } roomId
      (by dsimp only; rw [lookupKV_insertKV, if_pos rfl])
      hroom hhost rfl p hp

/-- Witness for C6: host `"h"` of room `"R"` sends its first chunk `"x"`
to the relay holding one listener `"l"`. -/
theorem audio_data_first_chunk_witness :
    (lookupKV serverIdleState.clients "h" =
        some ⟨"h", some "R", true, false, 0⟩ ∧
      ("x" : String).length ≠ 0 ∧
      ¬ 5242880 < ("x" : String).length ∧
      (serverIdleState.clients.map Prod.fst).Nodup) ∧
    ((handleAudioData "h" "x" (some 0) none 1 serverIdleState).2 =
      (listenerIds serverIdleState "R").map
        (fun l => (l, OutMsg.hostStreaming)) ++
      (listenerIds serverIdleState "R").map
        (fun l => (l, OutMsg.audioData "x" (some 0) none))) ∧
    (∀ L ∈ listenerIds serverIdleState "R",
      (((handleAudioData "h" "x" (some 0) none 1 serverIdleState).2.filter
        (fun p => decide (p.1 = L))).map Prod.snd) =
        [OutMsg.hostStreaming, OutMsg.audioData "x" (some 0) none]) :=
  ⟨⟨by decide, by decide, by decide, by decide⟩,
    (audio_data_first_chunk "h" "x" (some 0) none 1 serverIdleState
      ⟨"h", some "R", true, false, 0⟩ "R" ⟨"R", "h", false, 0⟩
      (by decide) rfl rfl rfl (by decide) (by decide) (by decide)
      (by decide)).2.2.1,
    (audio_data_first_chunk "h" "x" (some 0) none 1 serverIdleState
      ⟨"h", some "R", true, false, 0⟩ "R" ⟨"R", "h", false, 0⟩
      (by decide) rfl rfl rfl (by decide) (by decide) (by decide)
      (by decide)).2.2.2.1⟩

/-- C7 counterexample: an empty payload from a source that is not yet
marked streaming still mutates the registry (the room's active flag flips)
and sends `host_streaming` to the listener — the claim's "forwards nothing
to any listener … registry state unchanged" fails on this input. -/
theorem audio_data_invalid_payload_cex :
    (handleAudioData "h" "" none none 0 serverIdleState).1.storage ≠
      serverIdleState.storage ∧
    (handleAudioData "h" "" none none 0 serverIdleState).2 =
      [("l", OutMsg.hostStreaming)] := by
  constructor
  · decide
  · decide

/-- C7 (amended): for a source already marked streaming, an empty or
oversized (> 5242880 characters) payload produces no outgoing message at
all — nothing relayed, no error — and leaves the registry and the
connection table untouched except for the source's last-activity stamp;
every non-empty within-limit payload is relayed to every currently
registered listener.  (For a source not yet streaming, the message still
triggers the one-time streaming transition — flag, active-bit,
`host_streaming` broadcast — before the payload is dropped, see the
counterexample.) -/
theorem audio_data_payload_validation (cid data : String) (seq : Option ℕ)
    (ts : Option ℚ) (now : ℚ) (st : ServerState) (conn : ClientConnection)
    (roomId : String)
    (hconn : lookupKV st.clients cid = some conn)
    (hroom : conn.roomId = some roomId) (hhost : conn.isHost = true)
    (hs : conn.isStreaming = true) :
    (data.length = 0 ∨ 5242880 < data.length →
      (handleAudioData cid data seq ts now st).2 = [] ∧
      (handleAudioData cid data seq ts now st).1.storage = st.storage ∧
      (handleAudioData cid data seq ts now st).1.clients =
        insertKV st.clients cid { conn with lastAudioTime := now } ∧
      (handleAudioData cid data seq ts now st).1.clients.map Prod.fst =
        st.clients.map Prod.fst) ∧
    (data.length ≠ 0 → ¬ 5242880 < data.length →
      (handleAudioData cid data seq ts now st).2 =
        (listenerIds st roomId).map
          (fun l => (l, OutMsg.audioData data seq ts))) := by
  constructor
  · intro hbad
    rw [handleAudioData_streaming_dropped cid data seq ts now st conn roomId
      hconn hroom hhost hs hbad]
    refine ⟨rfl, rfl, rfl, ?_⟩
    exact keys_insertKV_of_lookup hconn _
  · intro h0 hbig
    rw [handleAudioData_streaming_valid cid data seq ts now st conn roomId
      hconn hroom hhost hs h0 hbig]
    dsimp only
    rw [broadcastToListeners_eq_map]
    congr 1
    exact listenerIds_insert_host st _ cid conn _ roomId hconn hhost hhost

/-- Witness for C7 (amended): the streaming host `"h"` sends an empty
payload, and separately a valid one-character payload. -/
theorem audio_data_payload_validation_witness :
    (lookupKV serverStreamingState.clients "h" =
        some ⟨"h", some "R", true, true, 0⟩ ∧
      ("" : String).length = 0) ∧
    ((handleAudioData "h" "" none none 2 serverStreamingState).2 = [] ∧
      (handleAudioData "h" "" none none 2 serverStreamingState).1.storage =
        serverStreamingState.storage ∧
      (handleAudioData "h" "" none none 2 serverStreamingState).1.clients =
        insertKV serverStreamingState.clients "h"
          ⟨"h", some "R", true, true, 2⟩ ∧
      (handleAudioData "h" "" none none 2
          serverStreamingState).1.clients.map Prod.fst =
        serverStreamingState.clients.map Prod.fst) ∧
    ((handleAudioData "h" "x" (some 1) none 2 serverStreamingState).2 =
      (listenerIds serverStreamingState "R").map
        (fun l => (l, OutMsg.audioData "x" (some 1) none))) :=
  ⟨⟨by decide, rfl⟩,
    (audio_data_payload_validation "h" "" none none 2 serverStreamingState
      ⟨"h", some "R", true, true, 0⟩ "R" (by decide) rfl rfl rfl).1
      (Or.inl rfl),
    (audio_data_payload_validation "h" "x" (some 1) none 2
      serverStreamingState ⟨"h", some "R", true, true, 0⟩ "R" (by decide)
      rfl rfl rfl).2 (by decide) (by decide)⟩

end SoundSync